import Mathlib

/-!
Verification of the project path registry and longest-prefix resolver
(`codebase_rag/project_path_resolver.py`).

Python strings are modelled as lists of characters (`PyStr`), the registry
dictionary as an association list preserving insertion order, and the
filesystem canonicalization `Path(p).resolve()` as an abstract function
parameter `res : PyStr → PyStr`, since its result depends on the filesystem.
`KeyError` raised with the formatted not-found message is modelled as an
explicit error value carrying the two arguments the source feeds into the
message template: the requested project name and the list of registered
project names.
-/

namespace CodeGraphRAG

/-- Python strings, modelled as lists of characters. -/
abbrev PyStr := List Char

/-- Python `s.startswith(pre)`: `pre` is a literal prefix of `s`. -/
def pyStartsWith : PyStr → PyStr → Bool
  | _, [] => true
  | [], _ :: _ => false
  | c :: cs, p :: ps => p == c && pyStartsWith cs ps

/-- Python `s.split(".")[0]`: the characters of `s` up to (excluding) the
first `'.'`, or all of `s` when it has no `'.'`. -/
def firstSegment : PyStr → PyStr
  | [] => []
  | c :: cs => if c == '.' then [] else c :: firstSegment cs

/-- Stable insertion step for sorting by length, descending: `x` is placed
before the first element whose length does not exceed `x`'s. -/
def insertByLen (x : PyStr) : List PyStr → List PyStr
  | [] => [x]
  | y :: ys => if y.length ≤ x.length then x :: y :: ys else y :: insertByLen x ys

/-- Python `sorted(keys, key=len, reverse=True)`: a stable sort putting the
longest strings first. -/
def sortByLenDesc (l : List PyStr) : List PyStr :=
  l.foldr insertByLen []

/-- Dictionary lookup on an association list (Python `d[k]` / `k in d`). -/
def assocGet (l : List (PyStr × PyStr)) (k : PyStr) : Option PyStr :=
  match l with
  | [] => none
  | (k', v) :: rest => if k' == k then some v else assocGet rest k

/-- Python `k in d` on the mapping dictionary. -/
def containsKey (l : List (PyStr × PyStr)) (k : PyStr) : Bool :=
  (assocGet l k).isSome

/-- Python `d[k] = v`: overwrite in place when the key exists (keeping its
insertion position, as CPython dictionaries do), otherwise append. -/
def assocSet (l : List (PyStr × PyStr)) (k v : PyStr) : List (PyStr × PyStr) :=
  match l with
  | [] => [(k, v)]
  | (k', v') :: rest => if k' == k then (k, v) :: rest else (k', v') :: assocSet rest k v

/-- Python `del d[k]`: drop the entry for `k` (keys are unique). -/
def assocRemove (l : List (PyStr × PyStr)) (k : PyStr) : List (PyStr × PyStr) :=
  match l with
  | [] => []
  | (k', v) :: rest => if k' == k then rest else (k', v) :: assocRemove rest k

/-- Python `list(d.keys())` in insertion order. -/
def listKeys (l : List (PyStr × PyStr)) : List PyStr :=
  l.map Prod.fst

/-- The single error kind of the component: `KeyError` raised by
`get_project_path` / `remove_project`. The source formats a message from a
template in the `logs` module with two arguments, `project=<requested name>`
and `available=", ".join(self._mappings.keys())`; the error value carries
those two arguments. -/
inductive ResolverError where
  | notFound (project : PyStr) (available : List PyStr)
deriving DecidableEq

/-- The state of `ProjectPathResolver`: its `_mappings` dictionary from
project name to the (already resolved) path, in insertion order. -/
structure ProjectPathResolver where
  mappings : List (PyStr × PyStr)
deriving DecidableEq

/-- `pathlib.Path(p).name` as used on the resolved default path: the final
path segment, i.e. the characters after the last `'/'`. -/
def pathName (p : PyStr) : PyStr :=
  ((p.reverse.takeWhile (fun c => !(c == '/'))).reverse)

/-- Python truthiness of the optional `mappings` argument: `None` and the
empty dictionary are falsy, a non-empty dictionary is truthy. -/
def dictTruthy (m : Option (List (PyStr × PyStr))) : Bool :=
  match m with
  | none => false
  | some l => !l.isEmpty

/-- `ProjectPathResolver.__init__(mappings)`. `res` stands for
`Path(·).resolve()` and `targetRepoPath` for the configured
`settings.TARGET_REPO_PATH` (read in the default branch). The source guards
the explicit branch with `if mappings:` — Python truthiness — so both `None`
and the empty dictionary take the default branch, which stores the single
entry `(resolved path's final segment, resolved path)`. -/
def initResolver (res : PyStr → PyStr) (targetRepoPath : PyStr)
    (mappings : Option (List (PyStr × PyStr))) : ProjectPathResolver :=
  if dictTruthy mappings then
    ⟨(mappings.getD []).foldl (fun acc nv => assocSet acc nv.1 (res nv.2)) []⟩
  else
    ⟨[(pathName (res targetRepoPath), res targetRepoPath)]⟩

/-- `extract_project_name`: sort the registered names by length descending,
return the first `p` with `qualified_name.startswith(p + ".")`, and fall
back to `qualified_name.split(".")[0]` when none matches. -/
def extract_project_name (r : ProjectPathResolver) (qualified_name : PyStr) : PyStr :=
  ((sortByLenDesc (listKeys r.mappings)).find?
      (fun project_name => pyStartsWith qualified_name (project_name ++ ['.']))).getD
    (firstSegment qualified_name)

/-- `get_project_path`: raise `KeyError` (carrying the requested name and
the registered names) when absent, otherwise return the stored path. -/
def get_project_path (r : ProjectPathResolver) (project_name : PyStr) :
    Except ResolverError PyStr :=
  match assocGet r.mappings project_name with
  | none => Except.error (ResolverError.notFound project_name (listKeys r.mappings))
  | some path => Except.ok path

/-- `resolve_path_from_fqn`: `get_project_path` after `extract_project_name`. -/
def resolve_path_from_fqn (r : ProjectPathResolver) (qualified_name : PyStr) :
    Except ResolverError PyStr :=
  get_project_path r (extract_project_name r qualified_name)

/-- `list_projects`: the registered project names, in insertion order. -/
def list_projects (r : ProjectPathResolver) : List PyStr :=
  listKeys r.mappings

/-- `add_project(name, path)`: store `Path(path).resolve()` under `name`,
overwriting any previous entry. Always succeeds. -/
def add_project (res : PyStr → PyStr) (r : ProjectPathResolver)
    (name path : PyStr) : ProjectPathResolver :=
  ⟨assocSet r.mappings name (res path)⟩

/-- `remove_project(name)`: raise `KeyError` before touching the mapping
when `name` is absent (the state is returned unchanged alongside the error),
otherwise delete the entry. -/
def remove_project (r : ProjectPathResolver) (name : PyStr) :
    Except ResolverError Unit × ProjectPathResolver :=
  if containsKey r.mappings name = false then
    (Except.error (ResolverError.notFound name (listKeys r.mappings)), r)
  else
    (Except.ok (), ⟨assocRemove r.mappings name⟩)

/-! ### Helper lemmas -/

/-- `pyStartsWith s pre` holds exactly when `s` extends `pre` on the right. -/
theorem pyStartsWith_iff : ∀ (s pre : PyStr), pyStartsWith s pre = true ↔ ∃ t, s = pre ++ t
  | s, [] => by simp [pyStartsWith]
  | [], p :: ps => by simp [pyStartsWith]
  | c :: cs, p :: ps => by
    simp only [pyStartsWith, Bool.and_eq_true, beq_iff_eq, List.cons_append,
      List.cons.injEq, pyStartsWith_iff cs ps]
    constructor
    · rintro ⟨hpc, t, ht⟩
      exact ⟨t, hpc.symm, ht⟩
    · rintro ⟨t, hcp, ht⟩
      exact ⟨hcp.symm, t, ht⟩

/-- A string starts with any of its literal initial segments. -/
theorem pyStartsWith_append (pre t : PyStr) : pyStartsWith (pre ++ t) pre = true :=
  (pyStartsWith_iff (pre ++ t) pre).mpr ⟨t, rfl⟩

/-- A literal initial segment is no longer than the whole string. -/
theorem length_le_of_pyStartsWith (s pre : PyStr) (h : pyStartsWith s pre = true) :
    pre.length ≤ s.length := by
  obtain ⟨t, ht⟩ := (pyStartsWith_iff s pre).mp h
  subst ht
  simp

/-- Two initial segments of the same string with equal lengths coincide. -/
theorem pyStartsWith_inj (s a b : PyStr) (ha : pyStartsWith s a = true)
    (hb : pyStartsWith s b = true) (hlen : a.length = b.length) : a = b := by
  obtain ⟨ta, hta⟩ := (pyStartsWith_iff s a).mp ha
  obtain ⟨tb, htb⟩ := (pyStartsWith_iff s b).mp hb
  exact (List.append_inj (hta ▸ htb) hlen).1

/-- Membership is preserved by the insertion step of the length sort. -/
theorem mem_insertByLen (x y : PyStr) (l : List PyStr) :
    y ∈ insertByLen x l ↔ y = x ∨ y ∈ l := by
  induction l with
  | nil => simp [insertByLen]
  | cons z zs ih =>
    by_cases h : z.length ≤ x.length
    · simp [insertByLen, h]
    · simp only [insertByLen, h, if_false, List.mem_cons, ih]
      tauto

/-- The sort is a membership-preserving reordering of the key snapshot. -/
theorem mem_sortByLenDesc (y : PyStr) (l : List PyStr) :
    y ∈ sortByLenDesc l ↔ y ∈ l := by
  induction l with
  | nil => simp [sortByLenDesc]
  | cons x xs ih =>
    show y ∈ insertByLen x (sortByLenDesc xs) ↔ _
    rw [mem_insertByLen, ih, List.mem_cons]

/-- The insertion step preserves the length-descending order. -/
theorem pairwise_insertByLen (x : PyStr) (l : List PyStr)
    (hl : l.Pairwise (fun a b => b.length ≤ a.length)) :
    (insertByLen x l).Pairwise (fun a b => b.length ≤ a.length) := by
  induction l with
  | nil => simp [insertByLen]
  | cons z zs ih =>
    rcases List.pairwise_cons.mp hl with ⟨hz, hzs⟩
    by_cases h : z.length ≤ x.length
    · simp only [insertByLen, h, if_true]
      refine List.pairwise_cons.mpr ⟨?_, hl⟩
      intro b hb
      rcases List.mem_cons.mp hb with hb | hb
      · exact hb ▸ h
      · exact le_trans (hz b hb) h
    · simp only [insertByLen, h, if_false]
      refine List.pairwise_cons.mpr ⟨?_, ih hzs⟩
      intro b hb
      rcases (mem_insertByLen x b zs).mp hb with hb | hb
      · exact hb ▸ le_of_lt (Nat.lt_of_not_le h)
      · exact hz b hb

/-- The sorted key snapshot is ordered by length, longest first. -/
theorem pairwise_sortByLenDesc (l : List PyStr) :
    (sortByLenDesc l).Pairwise (fun a b => b.length ≤ a.length) := by
  induction l with
  | nil => simp [sortByLenDesc]
  | cons x xs ih => exact pairwise_insertByLen x _ ih

/-- In a length-descending list, the first dot-bounded match is the unique
longest matching element. -/
theorem find_longest_eq (q p : PyStr) (L : List PyStr)
    (hsort : L.Pairwise (fun a b => b.length ≤ a.length))
    (hmem : p ∈ L) (hmatch : pyStartsWith q (p ++ ['.']) = true)
    (hmax : ∀ x ∈ L, pyStartsWith q (x ++ ['.']) = true → x.length ≤ p.length) :
    L.find? (fun x => pyStartsWith q (x ++ ['.'])) = some p := by
  induction L with
  | nil => exact absurd hmem (List.not_mem_nil p)
  | cons y ys ih =>
    rcases List.pairwise_cons.mp hsort with ⟨hy, hys⟩
    by_cases hpy : pyStartsWith q (y ++ ['.']) = true
    · have hfind : List.find? (fun x => pyStartsWith q (x ++ ['.'])) (y :: ys)
          = some y := by
        simp [List.find?_cons, hpy]
      rw [hfind]
      rcases List.mem_cons.mp hmem with hp | hp
      · rw [hp]
      · have h1 : y.length ≤ p.length := hmax y (List.mem_cons_self y ys) hpy
        have h2 : p.length ≤ y.length := hy p hp
        have : y ++ ['.'] = p ++ ['.'] :=
          pyStartsWith_inj q (y ++ ['.']) (p ++ ['.']) hpy hmatch
            (by simp [Nat.le_antisymm h1 h2])
        exact congrArg some ((List.append_inj this (by simp [Nat.le_antisymm h1 h2])).1)
    · have hfind : List.find? (fun x => pyStartsWith q (x ++ ['.'])) (y :: ys)
          = List.find? (fun x => pyStartsWith q (x ++ ['.'])) ys := by
        have hpy' : pyStartsWith q (y ++ ['.']) = false := by simpa using hpy
        simp [List.find?_cons, hpy']
      rw [hfind]
      have hp : p ∈ ys := by
        rcases List.mem_cons.mp hmem with hp | hp
        · exact absurd (hp ▸ hmatch) hpy
        · exact hp
      exact ih hys hp (fun x hx => hmax x (List.mem_cons_of_mem y hx))

/-- A registered name whose dot-bounded form prefixes the input, and which is
longest among all such registered names, is the extraction result. -/
theorem extract_eq_of_longest (r : ProjectPathResolver) (q p : PyStr)
    (hmem : p ∈ listKeys r.mappings)
    (hmatch : pyStartsWith q (p ++ ['.']) = true)
    (hmax : ∀ x ∈ listKeys r.mappings, pyStartsWith q (x ++ ['.']) = true →
      x.length ≤ p.length) :
    extract_project_name r q = p := by
  unfold extract_project_name
  rw [find_longest_eq q p _ (pairwise_sortByLenDesc _)
    ((mem_sortByLenDesc p _).mpr hmem) hmatch
    (fun x hx => hmax x ((mem_sortByLenDesc x _).mp hx))]
  rfl

/-- When no registered name passes the dot-boundary test, extraction falls
back to the first segment. -/
theorem extract_eq_fallback (r : ProjectPathResolver) (q : PyStr)
    (h : ∀ p ∈ listKeys r.mappings, pyStartsWith q (p ++ ['.']) = false) :
    extract_project_name r q = firstSegment q := by
  unfold extract_project_name
  have hnone : (sortByLenDesc (listKeys r.mappings)).find?
      (fun p => pyStartsWith q (p ++ ['.'])) = none := by
    rw [List.find?_eq_none]
    intro x hx
    simp [h x ((mem_sortByLenDesc x _).mp hx)]
  rw [hnone]
  rfl

/-- An input without a dot falls through `split(".")[0]` unchanged. -/
theorem firstSegment_of_no_dot : ∀ (q : PyStr), '.' ∉ q → firstSegment q = q
  | [], _ => rfl
  | c :: cs, h => by
    have hc : (c == '.') = false := by
      simp only [beq_eq_false_iff_ne, ne_eq]
      intro hcc
      exact h (hcc ▸ List.mem_cons_self c cs)
    simp [firstSegment, hc,
      firstSegment_of_no_dot cs (fun hm => h (List.mem_cons_of_mem c hm))]

/-- An input containing a dot is strictly longer than its first segment. -/
theorem firstSegment_length_lt : ∀ (q : PyStr), '.' ∈ q →
    (firstSegment q).length < q.length
  | c :: cs, h => by
    by_cases hc : c = '.'
    · simp [firstSegment, hc]
    · have hcs : '.' ∈ cs := by
        rcases List.mem_cons.mp h with h1 | h1
        · exact absurd h1.symm hc
        · exact h1
      have hcb : (c == '.') = false := by simp [hc]
      simpa [firstSegment, hcb] using Nat.succ_lt_succ (firstSegment_length_lt cs hcs)

/-- On inputs containing a dot, extraction never returns the input itself:
a dot-bounded match is strictly shorter than the input, and so is the first
segment. -/
theorem extract_ne_self_of_dot (r : ProjectPathResolver) (q : PyStr)
    (hq : '.' ∈ q) : extract_project_name r q ≠ q := by
  unfold extract_project_name
  cases hfind : (sortByLenDesc (listKeys r.mappings)).find?
      (fun p => pyStartsWith q (p ++ ['.'])) with
  | none =>
    simp only [Option.getD_none]
    intro hcontra
    exact absurd (hcontra ▸ firstSegment_length_lt q hq) (lt_irrefl _)
  | some p =>
    simp only [Option.getD_some]
    have hm := List.find?_some hfind
    have hlen : (p ++ ['.']).length ≤ q.length := length_le_of_pyStartsWith _ _ hm
    intro hcontra
    subst hcontra
    simp at hlen

/-- Insertion stores the value under the key, visible to lookup. -/
theorem assocGet_assocSet_self (k v : PyStr) : ∀ (l : List (PyStr × PyStr)),
    assocGet (assocSet l k v) k = some v
  | [] => by simp [assocSet, assocGet]
  | (k', v') :: rest => by
    by_cases h : k' == k
    · simp [assocSet, h, assocGet]
    · simp [assocSet, h, assocGet, assocGet_assocSet_self k v rest]

/-- Failed membership test implies an empty lookup result. -/
theorem assocGet_eq_none_of_not_contains (l : List (PyStr × PyStr)) (k : PyStr)
    (h : containsKey l k = false) : assocGet l k = none := by
  unfold containsKey at h
  cases hg : assocGet l k with
  | none => rfl
  | some v => rw [hg] at h; simp at h

/-- When the lookup result is present, `get_project_path` returns it. -/
theorem get_ok_of_assocGet (r : ProjectPathResolver) (n v : PyStr)
    (h : assocGet r.mappings n = some v) : get_project_path r n = Except.ok v := by
  unfold get_project_path
  rw [h]

/-- When the lookup result is absent, `get_project_path` fails with the
not-found error carrying the requested name and the registered names. -/
theorem get_err_of_assocGet (r : ProjectPathResolver) (n : PyStr)
    (h : assocGet r.mappings n = none) :
    get_project_path r n
      = Except.error (ResolverError.notFound n (listKeys r.mappings)) := by
  unfold get_project_path
  rw [h]

/-! ### Claim theorems -/

/-- C1 (code bug): constructing the resolver from an explicitly provided
empty mapping does NOT yield an empty registry. Because the source guards
the explicit branch with Python truthiness (`if mappings:`), the empty
dictionary falls into the configuration-default branch: a default entry is
derived from the configured root (here `/repo` with the identity
canonicalization), `list_projects` returns that single derived name, and
`get_project_path` on it succeeds. -/
theorem c1_empty_explicit_mapping_loads_default :
    list_projects (initResolver id (("/repo").toList) (some [])) = [("repo").toList] ∧
    get_project_path (initResolver id (("/repo").toList) (some [])) (("repo").toList)
      = Except.ok (("/repo").toList) :=
  ⟨rfl, rfl⟩

/-- C2 (counterexample): in a registry whose key set contains `"a"` and
`"a.b"` but also the longer `"a.b.c"`, the input `"a.b.c.x"` begins with the
literal string `"a.b."` yet `extract_project_name` returns `"a.b.c"`, not
`"a.b"` — refuting the claim quantified over registries merely containing
`"a"` and `"a.b"`. -/
theorem c2_counterexample :
    ("a").toList ∈ listKeys [(("a").toList, ("/1").toList),
        (("a.b").toList, ("/2").toList), (("a.b.c").toList, ("/3").toList)] ∧
    ("a.b").toList ∈ listKeys [(("a").toList, ("/1").toList),
        (("a.b").toList, ("/2").toList), (("a.b.c").toList, ("/3").toList)] ∧
    pyStartsWith (("a.b.c.x").toList) (("a.b.").toList) = true ∧
    extract_project_name ⟨[(("a").toList, ("/1").toList),
        (("a.b").toList, ("/2").toList), (("a.b.c").toList, ("/3").toList)]⟩
      (("a.b.c.x").toList) = ("a.b.c").toList ∧
    ("a.b.c").toList ≠ ("a.b").toList := by
  decide

/-- C2 (amended): for every registry whose key set is exactly
`{"a", "a.b"}` (in either insertion order), and every qualified name
beginning with the literal string `"a.b."`, `extract_project_name` returns
`"a.b"` and never `"a"`. -/
theorem c2_longest_wins_on_exact_key_set (m : List (PyStr × PyStr)) (s : PyStr)
    (h : listKeys m = [("a").toList, ("a.b").toList] ∨
         listKeys m = [("a.b").toList, ("a").toList]) :
    extract_project_name ⟨m⟩ (("a.b.").toList ++ s) = ("a.b").toList ∧
    extract_project_name ⟨m⟩ (("a.b.").toList ++ s) ≠ ("a").toList := by
  have hext : extract_project_name ⟨m⟩ (("a.b.").toList ++ s) = ("a.b").toList := by
    apply extract_eq_of_longest
    · show ("a.b").toList ∈ listKeys m
      rcases h with h | h <;> simp [h]
    · show pyStartsWith (("a.b.").toList ++ s) (("a.b").toList ++ ['.']) = true
      have heq : ("a.b").toList ++ ['.'] = ("a.b.").toList := rfl
      rw [heq]
      exact pyStartsWith_append _ _
    · intro x hx hxm
      have hx' : x ∈ listKeys m := hx
      have hor : x = ("a").toList ∨ x = ("a.b").toList := by
        rcases h with h | h <;> rw [h] at hx' <;> simp at hx' <;> tauto
      rcases hor with rfl | rfl <;> decide
  refine ⟨hext, ?_⟩
  rw [hext]
  decide

/-- Witness for C2 (amended) at the registry `{"a": "/1", "a.b": "/2"}` and
the qualified name `"a.b.x"`. -/
theorem c2_longest_wins_on_exact_key_set_witness :
    (listKeys [(("a").toList, ("/1").toList), (("a.b").toList, ("/2").toList)]
        = [("a").toList, ("a.b").toList] ∨
     listKeys [(("a").toList, ("/1").toList), (("a.b").toList, ("/2").toList)]
        = [("a.b").toList, ("a").toList]) ∧
    extract_project_name ⟨[(("a").toList, ("/1").toList),
        (("a.b").toList, ("/2").toList)]⟩ (("a.b.").toList ++ ("x").toList)
      = ("a.b").toList :=
  ⟨Or.inl rfl, (c2_longest_wins_on_exact_key_set
      [(("a").toList, ("/1").toList), (("a.b").toList, ("/2").toList)]
      (("x").toList) (Or.inl rfl)).1⟩

/-- C3: every extraction result either passes the dot-boundary test
(`qualifiedName.startswith(p + ".")`) or is the first-segment fallback, so a
registered name can only be counted as a match when it is a dot-bounded
prefix; in particular the registered bare substring prefix `"project"`
against `"projectX.foo"` is never a match and that input falls through to
the fallback `"projectX"`. -/
theorem c3_dot_bounded_matching (r : ProjectPathResolver) (q : PyStr) :
    (pyStartsWith q (extract_project_name r q ++ ['.']) = true ∨
      extract_project_name r q = firstSegment q) ∧
    (∀ v, extract_project_name ⟨[(("project").toList, v)]⟩ (("projectX.foo").toList)
        = ("projectX").toList) := by
  constructor
  · unfold extract_project_name
    cases hfind : (sortByLenDesc (listKeys r.mappings)).find?
        (fun p => pyStartsWith q (p ++ ['.'])) with
    | none => exact Or.inr rfl
    | some p => exact Or.inl (by simpa using List.find?_some hfind)
  · intro v
    rfl

/-- C4: `extract_project_name` is total by construction, and when no
registered name is a dot-bounded prefix of the input, it returns
`split(".")[0]` — the input up to (excluding) the first dot — which is the
whole input unchanged when the input contains no dot. -/
theorem c4_total_with_first_segment_fallback (r : ProjectPathResolver) (q : PyStr)
    (h : ∀ p ∈ listKeys r.mappings, pyStartsWith q (p ++ ['.']) = false) :
    extract_project_name r q = firstSegment q ∧
      ('.' ∉ q → extract_project_name r q = q) := by
  refine ⟨extract_eq_fallback r q h, fun hnd => ?_⟩
  rw [extract_eq_fallback r q h, firstSegment_of_no_dot q hnd]

/-- Witness for C4 at the registry `{"other": "/x"}` and the dotless
qualified name `"word"`. -/
theorem c4_total_with_first_segment_fallback_witness :
    (∀ p ∈ listKeys [(("other").toList, ("/x").toList)],
        pyStartsWith (("word").toList) (p ++ ['.']) = false) ∧
    extract_project_name ⟨[(("other").toList, ("/x").toList)]⟩ (("word").toList)
      = ("word").toList :=
  ⟨by decide,
    (c4_total_with_first_segment_fallback ⟨[(("other").toList, ("/x").toList)]⟩
      (("word").toList) (by decide)).2 (by decide)⟩

/-- C5: `resolve_path_from_fqn` is the composition of
`extract_project_name` followed by `get_project_path`; it fails exactly when
the extracted namespace (matched or fallback) is not registered, and the
only possible error is the not-found error naming that namespace and the
registered names. -/
theorem c5_resolve_composes_extract_then_get (r : ProjectPathResolver) (q : PyStr) :
    resolve_path_from_fqn r q = get_project_path r (extract_project_name r q) ∧
    ((∃ e, resolve_path_from_fqn r q = Except.error e) ↔
      containsKey r.mappings (extract_project_name r q) = false) ∧
    (∀ e, resolve_path_from_fqn r q = Except.error e →
      e = ResolverError.notFound (extract_project_name r q) (listKeys r.mappings)) := by
  refine ⟨rfl, ?_, ?_⟩
  · unfold resolve_path_from_fqn get_project_path containsKey
    cases hget : assocGet r.mappings (extract_project_name r q) with
    | none => simp
    | some v => simp
  · intro e he
    unfold resolve_path_from_fqn get_project_path at he
    cases hget : assocGet r.mappings (extract_project_name r q) with
    | none =>
      rw [hget] at he
      simp only [Except.error.injEq] at he
      exact he.symm
    | some v =>
      rw [hget] at he
      simp at he

/-- Witness for C5 at the registry `{"known": "/path"}` and the qualified
name `"unknown.module.function"`. -/
theorem c5_resolve_composes_extract_then_get_witness :
    resolve_path_from_fqn ⟨[(("known").toList, ("/path").toList)]⟩
        (("unknown.module.function").toList)
      = get_project_path ⟨[(("known").toList, ("/path").toList)]⟩
          (extract_project_name ⟨[(("known").toList, ("/path").toList)]⟩
            (("unknown.module.function").toList)) :=
  (c5_resolve_composes_extract_then_get _ _).1

/-- C6 (counterexample): the input `"a.b.c"` is exactly the registered
multi-segment namespace `"a.b.c"`, yet with `"a.b"` also registered,
`extract_project_name` returns the match `"a.b"` — not the first segment
`"a"` — and `resolve_path_from_fqn` succeeds even though the first segment
is unregistered. -/
theorem c6_counterexample :
    (("a.b.c").toList ∈ listKeys [(("a.b").toList, ("/1").toList),
        (("a.b.c").toList, ("/2").toList)] ∧ '.' ∈ ("a.b.c").toList) ∧
    extract_project_name ⟨[(("a.b").toList, ("/1").toList),
        (("a.b.c").toList, ("/2").toList)]⟩ (("a.b.c").toList) = ("a.b").toList ∧
    ("a.b").toList ≠ firstSegment (("a.b.c").toList) ∧
    containsKey [(("a.b").toList, ("/1").toList), (("a.b.c").toList, ("/2").toList)]
        (firstSegment (("a.b.c").toList)) = false ∧
    resolve_path_from_fqn ⟨[(("a.b").toList, ("/1").toList),
        (("a.b.c").toList, ("/2").toList)]⟩ (("a.b.c").toList)
      = Except.ok (("/1").toList) :=
  ⟨by decide, by decide, by decide, by decide, rfl⟩

/-- C6 (amended): for a qualified name exactly equal to a registered
multi-segment namespace, extraction never returns the input itself (the
dot-boundary test fails for the input's own entry); when additionally no
registered namespace at all is a dot-bounded prefix of the input, the result
is the input's first segment, and resolution fails with the not-found error
for that segment whenever it is not itself registered. -/
theorem c6_exact_namespace_never_self_matches (r : ProjectPathResolver) (q : PyStr)
    (hmem : q ∈ listKeys r.mappings) (hdot : '.' ∈ q) :
    extract_project_name r q ≠ q ∧
    ((∀ p ∈ listKeys r.mappings, pyStartsWith q (p ++ ['.']) = false) →
      extract_project_name r q = firstSegment q ∧
      (containsKey r.mappings (firstSegment q) = false →
        resolve_path_from_fqn r q
          = Except.error (ResolverError.notFound (firstSegment q)
              (listKeys r.mappings)))) := by
  refine ⟨extract_ne_self_of_dot r q hdot, fun hno => ?_⟩
  have hfb := extract_eq_fallback r q hno
  refine ⟨hfb, fun habs => ?_⟩
  unfold resolve_path_from_fqn
  rw [hfb]
  exact get_err_of_assocGet r _ (assocGet_eq_none_of_not_contains _ _ habs)

/-- Witness for C6 (amended) at the registry `{"a.b": "/p"}` and the
qualified name `"a.b"`. -/
theorem c6_exact_namespace_never_self_matches_witness :
    (("a.b").toList ∈ listKeys [(("a.b").toList, ("/p").toList)] ∧
      '.' ∈ ("a.b").toList) ∧
    resolve_path_from_fqn ⟨[(("a.b").toList, ("/p").toList)]⟩ (("a.b").toList)
      = Except.error (ResolverError.notFound (("a").toList) [("a.b").toList]) :=
  ⟨by decide,
    ((c6_exact_namespace_never_self_matches ⟨[(("a.b").toList, ("/p").toList)]⟩
      (("a.b").toList) (by decide) (by decide)).2 (by decide)).2 (by decide)⟩

/-- C7: for any canonicalization function, registry state, namespace and
path, `add_project` stores the canonicalized path and an immediately
following `get_project_path` returns it; `get_project_path` takes no
canonicalization function at all, so canonicalization happens once, at
insertion time, never at lookup time. -/
theorem c7_add_then_get_returns_canonical (res : PyStr → PyStr)
    (r : ProjectPathResolver) (n p : PyStr) :
    assocGet (add_project res r n p).mappings n = some (res p) ∧
    get_project_path (add_project res r n p) n = Except.ok (res p) := by
  have h : assocGet (add_project res r n p).mappings n = some (res p) :=
    assocGet_assocSet_self n (res p) r.mappings
  exact ⟨h, get_ok_of_assocGet _ _ _ h⟩

/-- C8: removing an absent namespace fails with the not-found error carrying
the requested name and the currently registered names, and the returned
state is exactly the unchanged registry. -/
theorem c8_remove_missing_fails_atomically (r : ProjectPathResolver) (n : PyStr)
    (h : containsKey r.mappings n = false) :
    remove_project r n
      = (Except.error (ResolverError.notFound n (listKeys r.mappings)), r) := by
  unfold remove_project
  rw [h]
  simp

/-- Witness for C8 at the registry `{"project": "/path"}` and the absent
namespace `"nonexistent"`. -/
theorem c8_remove_missing_fails_atomically_witness :
    containsKey [(("project").toList, ("/path").toList)] (("nonexistent").toList)
        = false ∧
    remove_project ⟨[(("project").toList, ("/path").toList)]⟩
        (("nonexistent").toList)
      = (Except.error (ResolverError.notFound (("nonexistent").toList)
          [("project").toList]), ⟨[(("project").toList, ("/path").toList)]⟩) :=
  ⟨rfl, c8_remove_missing_fails_atomically _ _ rfl⟩

/-- C9: `get_project_path` returns the stored canonical root when the
namespace is registered, and otherwise fails with the not-found error
carrying the requested namespace and the full list of registered namespaces;
since registration is a boolean test, no other outcome is possible. -/
theorem c9_get_ok_or_notfound_payload (r : ProjectPathResolver) (n : PyStr) :
    (containsKey r.mappings n = true →
      ∃ v, assocGet r.mappings n = some v ∧ get_project_path r n = Except.ok v) ∧
    (containsKey r.mappings n = false →
      get_project_path r n
        = Except.error (ResolverError.notFound n (listKeys r.mappings))) := by
  constructor
  · intro h
    unfold containsKey at h
    obtain ⟨v, hv⟩ := Option.isSome_iff_exists.mp h
    exact ⟨v, hv, get_ok_of_assocGet r n v hv⟩
  · intro h
    exact get_err_of_assocGet r n (assocGet_eq_none_of_not_contains _ _ h)

/-- Witness for C9 at the registry `{"p1": "/r1"}` and the registered
namespace `"p1"`. -/
theorem c9_get_ok_or_notfound_payload_witness :
    containsKey [(("p1").toList, ("/r1").toList)] (("p1").toList) = true ∧
    ∃ v, assocGet [(("p1").toList, ("/r1").toList)] (("p1").toList) = some v ∧
      get_project_path ⟨[(("p1").toList, ("/r1").toList)]⟩ (("p1").toList)
        = Except.ok v :=
  ⟨rfl, (c9_get_ok_or_notfound_payload ⟨[(("p1").toList, ("/r1").toList)]⟩
    (("p1").toList)).1 rfl⟩

/-- C10: the empty string is a legal namespace — `add_project` with it
always succeeds and the entry is retrievable — and when the empty namespace
is registered while no non-empty registered namespace is a dot-bounded
prefix of the input, extraction on any input beginning with `'.'` returns
the empty namespace. -/
theorem c10_empty_namespace_legal_and_matches_dot (r : ProjectPathResolver) (q : PyStr) :
    (∀ res p, containsKey (add_project res r [] p).mappings [] = true ∧
        get_project_path (add_project res r [] p) [] = Except.ok (res p)) ∧
    ([] ∈ listKeys r.mappings → pyStartsWith q ['.'] = true →
      (∀ p ∈ listKeys r.mappings, p ≠ [] → pyStartsWith q (p ++ ['.']) = false) →
      extract_project_name r q = []) := by
  constructor
  · intro res p
    have h : assocGet (add_project res r [] p).mappings [] = some (res p) :=
      assocGet_assocSet_self [] (res p) r.mappings
    refine ⟨?_, get_ok_of_assocGet _ _ _ h⟩
    unfold containsKey
    rw [h]
    rfl
  · intro hmem hq hno
    apply extract_eq_of_longest r q []
    · exact hmem
    · simpa using hq
    · intro x hx hxm
      by_cases hxe : x = []
      · simp [hxe]
      · simp [hno x hx hxe] at hxm

/-- Witness for C10 at the registry `{"": "/path"}` and the qualified name
`".module.function"`. -/
theorem c10_empty_namespace_legal_and_matches_dot_witness :
    ([] ∈ listKeys [(([] : PyStr), ("/path").toList)] ∧
      pyStartsWith ((".module.function").toList) ['.'] = true) ∧
    extract_project_name ⟨[(([] : PyStr), ("/path").toList)]⟩
        ((".module.function").toList) = [] :=
  ⟨by decide,
    (c10_empty_namespace_legal_and_matches_dot
        ⟨[(([] : PyStr), ("/path").toList)]⟩ ((".module.function").toList)).2
      (by decide) (by decide) (by decide)⟩

end CodeGraphRAG
